import Mathlib

/-!
# Verification of the Volksbank beancount importer

A shallow embedding of `beancount_importer_volksbank.py` in Lean 4, together
with theorems settling the specification claims about it.  Strings are
modelled with Lean `String` (lists of characters), locale decimals with `ℚ`,
and fallible Python code with `Except String`.  All string manipulation is
done by structurally recursive helpers over `List Char` so that every
definition evaluates inside the kernel.
-/

deriving instance DecidableEq for Except

namespace Volksbank

/-- Substring containment on character lists, modelling Python's `in`
operator for strings (`pat in s`). -/
def listContains (pat : List Char) : List Char → Bool
  | [] => pat.isEmpty
  | c :: rest => pat.isPrefixOf (c :: rest) || listContains pat rest

/-- Python's `pat in s` for strings. -/
def strContains (s pat : String) : Bool := listContains pat.data s.data

/-- Split a character list at every occurrence of the character `c`,
modelling Python's `str.split(c)` (which never drops empty parts). -/
def splitOnChar (c : Char) : List Char → List (List Char)
  | [] => [[]]
  | a :: rest =>
    match splitOnChar c rest with
    | [] => if a = c then [[], []] else [[a]]
    | h :: t => if a = c then [] :: h :: t else (a :: h) :: t

/-- Python's `line.split(';')`. -/
def splitSemi (s : String) : List String := (splitOnChar (';') s.data).map String.mk

/-- The double-quote character, written without a quote literal. -/
def quoteChar : Char := Char.ofNat 34

/-- Value of a decimal digit list, `none` if empty or a non-digit occurs;
models Python's `int()` on the digit strings appearing in dates. -/
def digitsToNat? (l : List Char) : Option Nat :=
  if l.isEmpty then none
  else l.foldl (fun acc c =>
    match acc with
    | none => none
    | some n => if c.isDigit then some (n * 10 + (c.toNat - 48)) else none) (some 0)

/-! ## Numbers: banker's rounding and decimal-string parsing -/

/-- Round-half-to-even on rationals, the rounding mode of Python's `round`. -/
def roundHalfEven (q : ℚ) : ℤ :=
  let f := ⌊q⌋
  let r : ℚ := q - f
  if r < 1/2 then f
  else if 1/2 < r then f + 1
  else if f % 2 = 0 then f else f + 1

/-- Python's `round(x, 2)`. -/
def roundTo2 (q : ℚ) : ℚ := (roundHalfEven (q * 100) : ℚ) / 100

/-- Model of Python's `float()` / `Decimal()` applied to the canonical decimal
strings produced by the importer (optional leading minus, digits, optional
single decimal point). -/
def parseRat (s : String) : Option ℚ :=
  let l := s.data
  let sl : ℚ × List Char :=
    match l with
    | c :: rest => if c = ('-') then (-1, rest) else (1, l)
    | [] => (1, [])
  match splitOnChar ('.') sl.2 with
  | [i] => (digitsToNat? i).map (fun n => sl.1 * (n : ℚ))
  | [i, f] =>
    match digitsToNat? i, digitsToNat? f with
    | some ni, some nf => some (sl.1 * ((ni : ℚ) + (nf : ℚ) / (10 : ℚ) ^ f.length))
    | _, _ => none
  | _ => none

/-! ## Dates (`datetime.date` with the constructor's validity check) -/

/-- A calendar date as Python's `datetime.date` holds it. -/
structure SDate where
  year : Nat
  month : Nat
  day : Nat
deriving DecidableEq, Repr

/-- Gregorian leap-year test (as in `datetime`). -/
def isLeap (y : Nat) : Bool := (y % 4 == 0 && y % 100 != 0) || y % 400 == 0

/-- Number of days in a month (as in `datetime`). -/
def daysInMonth (y m : Nat) : Nat :=
  if m = 2 then (if isLeap y then 29 else 28)
  else if m = 4 ∨ m = 6 ∨ m = 9 ∨ m = 11 then 30 else 31

/-- `datetime.date` range validity. -/
def validDate (y m d : Nat) : Bool :=
  1 ≤ y && 1 ≤ m && m ≤ 12 && 1 ≤ d && d ≤ daysInMonth y m

/-- `convert_date` from the source: strip quote characters, split on `.` into
day, month and year, convert each with `int()` and build a `datetime.date`.
Any failure (wrong number of components, non-digits, out-of-range date)
raises, modelled as `Except.error`. -/
def convert_date (date : String) : Except String SDate :=
  match splitOnChar ('.') (date.data.filter (fun c => c != quoteChar)) with
  | [d, m, y] =>
    match digitsToNat? d, digitsToNat? m, digitsToNat? y with
    | some dd, some mm, some yy =>
      if validDate yy mm dd then Except.ok ⟨yy, mm, dd⟩ else Except.error ("ValueError")
    | _, _, _ => Except.error ("ValueError")
  | _ => Except.error ("ValueError")

/-- `date + datetime.timedelta(days=1)` for valid dates. -/
def addOneDay (d : SDate) : SDate :=
  if d.day + 1 ≤ daysInMonth d.year d.month then ⟨d.year, d.month, d.day + 1⟩
  else if d.month = 12 then ⟨d.year + 1, 1, 1⟩
  else ⟨d.year, d.month + 1, 1⟩

/-- Lexicographic order on dates, used for `sorted(entries, key=e.date)`. -/
def dateLe (a b : SDate) : Bool :=
  a.year < b.year || (a.year == b.year &&
    (a.month < b.month || (a.month == b.month && a.day ≤ b.day)))

/-! ## ValueCodec (`convert_value`, `convert_value2`) -/

/-- The separator conversion shared by both codecs:
`value.replace('.','').replace(',','.')`. -/
def sepConvert (l : List Char) : List Char :=
  (l.filter (fun c => c != ('.'))).map (fun c => if c == (',') then ('.') else c)

/-- `convert_value` from the source: convert the separators, strip quote
characters, and prefix a minus sign exactly when the Soll/Haben marker
contains the character `S`. Returns a string, as the Python function does. -/
def convert_value (value soll_haben : String) : String :=
  (if strContains soll_haben ("S") then ("-") else ("")) ++
    String.mk ((sepConvert value.data).filter (fun c => c != quoteChar))

/-- `convert_value2` from the source: separator conversion only, for variants
whose numerals already carry their sign. -/
def convert_value2 (value : String) : String := String.mk (sepConvert value.data)

/-! ## PostingGuesser (`guess_postings`) and HistoryIndex (`initialize_guessing`)

A beancount posting is modelled by its account, the number of its `units`,
and its currency; the other fields of `data.Posting` are always `None` in
this importer.
-/

/-- One leg of a (historical or generated) transaction. -/
structure Posting where
  account : String
  number : ℚ
  currency : String
deriving DecidableEq, Repr

/-- `self.posting_dict`: payee → chronologically ordered posting groups. -/
abbrev PostingDict : Type := List (String × List (List Posting))

/-- Python dictionary lookup (`payee in d` / `d[payee]`) on the model. -/
def lookupD : PostingDict → String → Option (List (List Posting))
  | [], _ => none
  | (k, v) :: rest, key => if k = key then some v else lookupD rest key

/-- `s = sum([float(u.number) for u in units if u.number > 0])`. -/
def posSum (prev : List Posting) : ℚ :=
  (prev.filter (fun p => 0 < p.number)).foldl (fun a p => a + p.number) 0

/-- Final value of `prev_posting_had_reversed_signs` after the first loop of
`guess_postings`: each leg on the importing account overwrites it, so the
last such leg wins; `none` models the name never being bound. -/
def revFlag (prev : List Posting) (acct : String) (v : ℚ) : Option Bool :=
  prev.foldl (fun acc p => if p.account = acct then some (decide (p.number * v < 0)) else acc) none

/-- Position of the last leg on account `acct`, counted from the front;
`none` when no leg matches. Specification-side companion of
`lastMatchIdx` below. -/
def lastMatchPos (acct : String) : List Posting → Option Nat
  | [] => none
  | p :: rest =>
    match lastMatchPos acct rest with
    | some j => some (j + 1)
    | none => if p.account = acct then some 0 else none

/-- The index variable `i` after the second loop of `guess_postings`:
`i = 0; for j,posting in enumerate(new_postings): if posting.account == self.account: i = j`. -/
def lastMatchIdx (ps : List Posting) (acct : String) : Nat :=
  ps.enum.foldl (fun i jp => if jp.2.account = acct then jp.1 else i) 0

/-- `new_postings.append(new_postings.pop(i))` for an in-range `i` (every
reachable call in `guess_postings` is in range; out-of-range is the
identity here). -/
def popAppend (ps : List Posting) (i : Nat) : List Posting :=
  match ps.get? i with
  | some p => ps.eraseIdx i ++ [p]
  | none => ps

/-- `VolksbankImporter.guess_postings`, with the importer configuration
(`self.account`, `self.default_adjacent_account`, `self.currency`,
`self.posting_dict`) passed explicitly.  The three Python failure modes are
modelled as `Except.error`: division by the zero sum `s`, the unbound
reversal flag, and `list.pop` on an empty list, in the evaluation order of
the source. -/
def guess_postings (d : PostingDict) (acct dflt cur : String) (payee : String) (v : ℚ) :
    Except String (List Posting) :=
  match lookupD d payee with
  | some groups =>
    match groups.getLast? with
    | none => Except.error ("IndexError")
    | some prev =>
      if prev.isEmpty then Except.error ("IndexError")
      else
        let s := posSum prev
        if s = 0 then Except.error ("ZeroDivisionError")
        else
          match revFlag prev acct v with
          | none => Except.error ("NameError")
          | some rev =>
            let new_postings := prev.map (fun p =>
              { account := p.account
                number := roundTo2 ((if rev then -(p.number / s) else p.number / s) * |v|)
                currency := cur })
            Except.ok (popAppend new_postings (lastMatchIdx new_postings acct))
  | none => Except.ok [⟨dflt, -v, cur⟩, ⟨acct, v, cur⟩]

/-- A historical ledger transaction as `initialize_guessing` reads it:
its date, its (nullable) payee and its postings. -/
structure HistTxn where
  date : SDate
  payee : Option String
  postings : List Posting
deriving DecidableEq, Repr

/-- `self.posting_dict[payee].append(...)` with Python-dict key semantics:
append to an existing key's list, otherwise add the key at the end. -/
def dictAppend (d : PostingDict) (k : String) (g : List Posting) : PostingDict :=
  match d with
  | [] => [(k, [g])]
  | (k0, gs) :: rest => if k0 = k then (k0, gs ++ [g]) :: rest else (k0, gs) :: dictAppend rest k g

/-- `VolksbankImporter.initialize_guessing`, applied to the transactions the
ledger loader returned: sort ascending by date, keep only transactions whose
legs mention the importing account and whose payee is present and non-empty,
and group the posting lists under their payee in order. -/
def initialize_guessing (acct : String) (entries : List HistTxn) : PostingDict :=
  (entries.mergeSort (fun a b => dateLe a.date b.date)).foldl (fun d e =>
    if !(e.postings.any (fun p => p.account = acct)) then d
    else
      match e.payee with
      | none => d
      | some py => if py.length = 0 then d else dictAppend d py e.postings) []

/-! ## FormatDetector (`identify`) -/

/-- Header signature of format version 1 (quoted columns). -/
def header_version1 : String := ("\x22Buchungstag\x22;\x22Valuta\x22;\x22Auftraggeber/Zahlungsempfänger\x22;\x22Empfänger/Zahlungspflichtiger\x22;\x22Konto-Nr.\x22;\x22IBAN\x22;\x22BLZ\x22;\x22BIC\x22;\x22Vorgang/Verwendungszweck\x22;\x22Kundenreferenz\x22;\x22Währung\x22;\x22Umsatz\x22;\x22 \x22")

/-- Header signature of format version 2. -/
def header_version2 : String := ("Buchungstag;Valuta;Textschlüssel;Primanota;Zahlungsempfänger;ZahlungsempfängerKto;ZahlungsempfängerIBAN;ZahlungsempfängerBLZ;ZahlungsempfängerBIC;Vorgang/Verwendungszweck;Kundenreferenz;Währung;Umsatz;Soll/Haben")

/-- Header signature of format version 3. -/
def header_version3 : String := ("Bezeichnung Auftragskonto;IBAN Auftragskonto;BIC Auftragskonto;Bankname Auftragskonto;Buchungstag;Valutadatum;Name Zahlungsbeteiligter;IBAN Zahlungsbeteiligter;BIC (SWIFT-Code) Zahlungsbeteiligter;Buchungstext;Verwendungszweck;Betrag;Waehrung;Saldo nach Buchung;Bemerkung;Kategorie;Steuerrelevant;Glaeubiger ID;Mandatsreferenz")

/-- Header signature of format version 4. -/
def header_version4 : String := ("Bezeichnung Auftragskonto;IBAN Auftragskonto;BIC Auftragskonto;Bankname Auftragskonto;Buchungstag;Valutadatum;Name Zahlungsbeteiligter;IBAN Zahlungsbeteiligter;BIC (SWIFT-Code) Zahlungsbeteiligter;Buchungstext;Verwendungszweck;Betrag;Waehrung;Saldo nach Buchung;Bemerkung;Gekennzeichneter Umsatz;Glaeubiger ID;Mandatsreferenz")

/-- The header signature selected by each position of the `if/elif` chain in
`identify`. -/
def headerOf : Nat → String
  | 1 => header_version1
  | 2 => header_version2
  | 3 => header_version3
  | _ => header_version4

/-- `VolksbankImporter.identify` on the file's lines: the first line
containing one of the four signatures (tested in order 1,2,3,4) decides the
version; `none` models the non-fatal `return False` after the diagnostic
print. -/
def identify : List String → Option Nat
  | [] => none
  | l :: rest =>
    if strContains l header_version1 then some 1
    else if strContains l header_version2 then some 2
    else if strContains l header_version3 then some 3
    else if strContains l header_version4 then some 4
    else identify rest

/-! ## SchemaParser, variants 2 and 3/4 -/

/-- One parsed transaction row, bundling the entries the Python function
pushes onto its parallel lists `buchungstag`, `auftraggeber_empfaenger`,
`verwendungszweck`, `betrag`, `kontostand` and `linenumbers` at one index
(`buchungstext` is always the empty string). -/
structure RawRec where
  buchungstag : SDate
  auftraggeber_empfaenger : String
  verwendungszweck : String
  betrag : String
  kontostand : Option String
  linenumber : Nat
deriving DecidableEq, Repr

/-- The `(date, amount-string, linenumber)` triple the parsers call
`endsaldo`. -/
abbrev Endsaldo : Type := SDate × String × Nat

/-- Python list indexing `vs[i]`, raising `IndexError` when out of range. -/
def getF (vs : List String) (i : Nat) : Except String String :=
  match vs.get? i with
  | some s => Except.ok s
  | none => Except.error ("IndexError")

/-- Loop body of `parse_csv_file_v2` past the header, on one split line:
either the Endsaldo triple, or `none` for a discarded Anfangssaldo row, or a
`RawRec`. -/
def parseRowV2 (values : List String) (ln : Nat) :
    Except String (Option (Sum Endsaldo RawRec)) :=
  match getF values 10 with
  | Except.error e => Except.error e
  | Except.ok v10 =>
    if v10 = ("Endsaldo") then
      match convert_date (values.headD ("")) with
      | Except.error e => Except.error e
      | Except.ok dt =>
        match getF values 12 with
        | Except.error e => Except.error e
        | Except.ok v12 =>
          match getF values 13 with
          | Except.error e => Except.error e
          | Except.ok v13 => Except.ok (some (Sum.inl (dt, convert_value v12 v13, ln)))
    else if v10 = ("Anfangssaldo") then Except.ok none
    else
      match convert_date (values.headD ("")) with
      | Except.error e => Except.error e
      | Except.ok dt =>
        match getF values 4 with
        | Except.error e => Except.error e
        | Except.ok v4 =>
          match getF values 9 with
          | Except.error e => Except.error e
          | Except.ok v9 =>
            match getF values 12 with
            | Except.error e => Except.error e
            | Except.ok v12 =>
              match getF values 13 with
              | Except.error e => Except.error e
              | Except.ok v13 =>
                Except.ok (some (Sum.inr ⟨dt, v4, v9, convert_value v12 v13, none, ln⟩))

/-- The line loop of `parse_csv_file_v2`.  `hdr` is the `header` flag, `ln`
the current line number, `acc` the records collected so far (reversed), `es`
the Endsaldo seen so far. -/
def parse_v2_go : List String → Nat → Bool → List RawRec → Option Endsaldo →
    Except String (List RawRec × Option Endsaldo)
  | [], _, _, acc, es => Except.ok (acc.reverse, es)
  | l :: rest, ln, hdr, acc, es =>
    if hdr then parse_v2_go rest (ln+1) (!(strContains l ("Valuta"))) acc es
    else
      let values := splitSemi l
      if (values.headD ("")).data.length = 0 then parse_v2_go rest (ln+1) false acc es
      else
        match parseRowV2 values ln with
        | Except.error e => Except.error e
        | Except.ok none => parse_v2_go rest (ln+1) false acc es
        | Except.ok (some (Sum.inl e0)) => parse_v2_go rest (ln+1) false acc (some e0)
        | Except.ok (some (Sum.inr r)) => parse_v2_go rest (ln+1) false (r :: acc) es

/-- `parse_csv_file_v2` on the file's lines. -/
def parse_csv_file_v2 (lines : List String) : Except String (List RawRec × Option Endsaldo) :=
  parse_v2_go lines 0 true [] none

/-- Loop body of `parse_csv_file_v3` past the header, on one split line, in
the source's evaluation order (`values[4]`, date conversion, `values[6]`,
`values[10]`, `values[11]`, `values[13]`). -/
def parseRowV3 (values : List String) (ln : Nat) : Except String RawRec :=
  match getF values 4 with
  | Except.error e => Except.error e
  | Except.ok v4 =>
    match convert_date v4 with
    | Except.error e => Except.error e
    | Except.ok dt =>
      match getF values 6 with
      | Except.error e => Except.error e
      | Except.ok v6 =>
        match getF values 10 with
        | Except.error e => Except.error e
        | Except.ok v10 =>
          match getF values 11 with
          | Except.error e => Except.error e
          | Except.ok v11 =>
            match getF values 13 with
            | Except.error e => Except.error e
            | Except.ok v13 =>
              Except.ok ⟨dt, v6, v10, convert_value2 v11, some (convert_value2 v13), ln⟩

/-- The line loop of `parse_csv_file_v3`, followed by the closing-balance
synthesis `endsaldo = (buchungstag[0], kontostand[0], linenumbers[0])`,
which raises `IndexError` when no row was parsed. -/
def parse_v3_go : List String → Nat → Bool → List RawRec →
    Except String (List RawRec × Option Endsaldo)
  | [], _, _, acc =>
    match acc.reverse with
    | [] => Except.error ("IndexError")
    | r :: rs => Except.ok (r :: rs, some (r.buchungstag, r.kontostand.getD (""), r.linenumber))
  | l :: rest, ln, hdr, acc =>
    if hdr then parse_v3_go rest (ln+1) (!(strContains l ("Mandatsreferenz"))) acc
    else
      let values := splitSemi l
      if (values.headD ("")).data.length = 0 then parse_v3_go rest (ln+1) false acc
      else
        match parseRowV3 values ln with
        | Except.error e => Except.error e
        | Except.ok r => parse_v3_go rest (ln+1) false (r :: acc)

/-- `parse_csv_file_v3` on the file's lines (used for versions 3 and 4). -/
def parse_csv_file_v3 (lines : List String) : Except String (List RawRec × Option Endsaldo) :=
  parse_v3_go lines 0 true []

/-! ## EntryBuilder (`extract`) -/

/-- A generated `data.Transaction` (metadata reduced to the line number). -/
structure Txn where
  date : SDate
  flag : String
  payee : String
  narration : String
  postings : List Posting
  srcline : Nat
deriving DecidableEq, Repr

/-- A generated ledger entry: a transaction or the trailing `data.Balance`. -/
inductive Entry
  | txn : Txn → Entry
  | balance : SDate → String → ℚ → Nat → Entry
deriving DecidableEq, Repr

/-- The transaction-building loop of `extract`: for each record, convert the
amount string with `float(...)`, call `guess_postings`, and build the
transaction; any failure aborts the file. -/
def buildTxns (acct dflt cur flg : String) (d : PostingDict) :
    List RawRec → Except String (List Entry)
  | [] => Except.ok []
  | r :: rest =>
    match parseRat r.betrag with
    | none => Except.error ("ValueError")
    | some v =>
      match guess_postings d acct dflt cur r.auftraggeber_empfaenger v with
      | Except.error e => Except.error e
      | Except.ok ps =>
        match buildTxns acct dflt cur flg d rest with
        | Except.error e => Except.error e
        | Except.ok es =>
          Except.ok (Entry.txn ⟨r.buchungstag, flg, r.auftraggeber_empfaenger,
            r.verwendungszweck, ps, r.linenumber⟩ :: es)

/-- The tail of `extract` after the parse call: build all transactions, then
the balance assertion dated one day after the Endsaldo date (`endsaldo`
being `None` or its amount failing to convert aborts the file). -/
def extract_with (acct dflt cur flg : String) (d : PostingDict)
    (pr : Except String (List RawRec × Option Endsaldo)) : Except String (List Entry) :=
  match pr with
  | Except.error e => Except.error e
  | Except.ok (recs, es) =>
    match buildTxns acct dflt cur flg d recs with
    | Except.error e => Except.error e
    | Except.ok txns =>
      match es with
      | none => Except.error ("TypeError")
      | some (dt, amt, ln) =>
        match parseRat amt with
        | none => Except.error ("ValueError")
        | some q => Except.ok (txns ++ [Entry.balance (addOneDay dt) acct q ln])

/-- `VolksbankImporter.extract` on a file identified as version 2. -/
def extract_v2 (acct dflt cur flg : String) (d : PostingDict) (lines : List String) :
    Except String (List Entry) :=
  extract_with acct dflt cur flg d (parse_csv_file_v2 lines)

/-- `VolksbankImporter.extract` on a file identified as version 3 or 4. -/
def extract_v3 (acct dflt cur flg : String) (d : PostingDict) (lines : List String) :
    Except String (List Entry) :=
  extract_with acct dflt cur flg d (parse_csv_file_v3 lines)

/-! ## Concrete fixtures used by the claims -/

/-- The historical posting group of the specification's worked example:
`[(Groceries, -80), (ImportingAcct, +80)]`. -/
def exGroup : List Posting := [⟨("Groceries"), -80, ("EUR")⟩, ⟨("ImportingAcct"), 80, ("EUR")⟩]

/-- A history index holding only `exGroup` under payee `P`. -/
def exDict : PostingDict := [(("P"), [exGroup])]

/-- The V2 file of the end-to-end scenario: the V2 header, one data row
(01.03.2022, payee Landlord, amount 650,00 S) and one Endsaldo row
(1200,00 H). -/
def c2Lines : List String :=
  [header_version2,
   ("01.03.2022;01.03.2022;;;Landlord;;;;;Miete;x;EUR;650,00;S"),
   ("01.03.2022;;;;;;;;;;Endsaldo;;1200,00;H")]

/-- Predicate for a V3/V4 line that produces a record: non-empty leading
field after splitting on `;`. -/
def v3IsDataLine (l : String) : Bool := ((splitSemi l).headD ("")).data.length != 0

/-! ## Lemmas about rounding -/

/-- Round-half-to-even is symmetric about zero, so negating a share before
rounding (as the code does) and negating the rounded magnitude (as the
specification describes it) agree. -/
theorem roundHalfEven_neg (q : ℚ) : roundHalfEven (-q) = -roundHalfEven q := by
  unfold roundHalfEven
  by_cases h0 : Int.fract q = 0
  · have hq : ((⌊q⌋ : ℚ)) = q := by
      have h := h0
      rw [Int.fract] at h
      linarith
    have hneg : ⌊-q⌋ = -⌊q⌋ := by
      rw [← hq, ← Int.cast_neg, Int.floor_intCast, Int.floor_intCast]
    rw [hneg]
    have c1 : -q - ((-⌊q⌋ : ℤ) : ℚ) = 0 := by push_cast; linarith
    have c2 : q - ((⌊q⌋ : ℤ) : ℚ) = 0 := by linarith
    simp only [c1, c2]
    norm_num
  · have hfr : Int.fract q = q - ⌊q⌋ := rfl
    have h01 : 0 < Int.fract q := lt_of_le_of_ne (Int.fract_nonneg q) (Ne.symm h0)
    have h1 : Int.fract q < 1 := Int.fract_lt_one q
    have hfneg : Int.fract (-q) = 1 - Int.fract q := Int.fract_neg h0
    have hfloorneg : ⌊-q⌋ = -⌊q⌋ - 1 := by
      have h2 : Int.fract (-q) = -q - ⌊-q⌋ := rfl
      have h3 : ((⌊-q⌋ : ℤ) : ℚ) = ((-⌊q⌋ - 1 : ℤ) : ℚ) := by
        push_cast
        rw [hfr] at hfneg
        linarith [h2, hfneg]
      exact_mod_cast h3
    rw [hfloorneg]
    rcases lt_trichotomy (Int.fract q) (1/2 : ℚ) with hlt | heq | hgt
    · have ca : ¬ (-q - ((-⌊q⌋ - 1 : ℤ) : ℚ) < 1/2) := by
        push_cast
        rw [hfr] at hlt
        linarith
      have cb : (1/2 : ℚ) < -q - ((-⌊q⌋ - 1 : ℤ) : ℚ) := by
        push_cast
        rw [hfr] at hlt
        linarith
      have cc : q - ((⌊q⌋ : ℤ) : ℚ) < 1/2 := by rw [hfr] at hlt; exact hlt
      simp only [if_pos cc, if_neg ca, if_pos cb]
      ring
    · have ca : ¬ (-q - ((-⌊q⌋ - 1 : ℤ) : ℚ) < 1/2) := by
        push_cast
        rw [hfr] at heq
        linarith
      have cb : ¬ ((1/2 : ℚ) < -q - ((-⌊q⌋ - 1 : ℤ) : ℚ)) := by
        push_cast
        rw [hfr] at heq
        linarith
      have cc : ¬ (q - ((⌊q⌋ : ℤ) : ℚ) < 1/2) := by rw [hfr] at heq; linarith
      have cd : ¬ ((1/2 : ℚ) < q - ((⌊q⌋ : ℤ) : ℚ)) := by rw [hfr] at heq; linarith
      simp only [if_neg ca, if_neg cb, if_neg cc, if_neg cd]
      by_cases hpar : ⌊q⌋ % 2 = 0
      · have hpar2 : ¬ ((-⌊q⌋ - 1) % 2 = 0) := by omega
        simp only [if_pos hpar, if_neg hpar2]
        omega
      · have hpar2 : (-⌊q⌋ - 1) % 2 = 0 := by omega
        simp only [if_neg hpar, if_pos hpar2]
        omega
    · have ca : -q - ((-⌊q⌋ - 1 : ℤ) : ℚ) < 1/2 := by
        push_cast
        rw [hfr] at hgt
        linarith
      have cc : ¬ (q - ((⌊q⌋ : ℤ) : ℚ) < 1/2) := by rw [hfr] at hgt; linarith
      have cd : (1/2 : ℚ) < q - ((⌊q⌋ : ℤ) : ℚ) := by rw [hfr] at hgt; exact hgt
      simp only [if_pos ca, if_neg cc, if_pos cd]
      omega

/-- `round(-x, 2) = -round(x, 2)`. -/
theorem roundTo2_neg (q : ℚ) : roundTo2 (-q) = -roundTo2 q := by
  unfold roundTo2
  rw [neg_mul, roundHalfEven_neg]
  push_cast
  ring

/-- Negating a share before scaling and rounding (the code) equals rounding
first and negating the result (the specification's description). -/
theorem share_neg_comm (x av : ℚ) (c : Prop) [Decidable c] :
    roundTo2 ((if c then -x else x) * av) =
      (if c then -(roundTo2 (x * av)) else roundTo2 (x * av)) := by
  by_cases hc : c
  · rw [if_pos hc, if_pos hc, neg_mul, roundTo2_neg]
  · rw [if_neg hc, if_neg hc]

/-! ## Lemmas about the reversal flag and the move-to-end step -/

/-- The flag fold leaves the accumulator alone when no leg matches. -/
theorem flag_foldl_no_match (acct : String) (v : ℚ) :
    ∀ (l : List Posting) (acc : Option Bool), (∀ p ∈ l, p.account ≠ acct) →
      l.foldl (fun acc p => if p.account = acct then some (decide (p.number * v < 0)) else acc) acc = acc
  | [], _, _ => rfl
  | p :: rest, acc, h => by
    have hp : p.account ≠ acct := h p (List.mem_cons_self _ _)
    simp only [List.foldl_cons, if_neg hp]
    exact flag_foldl_no_match acct v rest acc (fun q hq => h q (List.mem_cons_of_mem _ hq))

/-- When every matching leg equals `p0`, the flag fold either sees no match
at all or ends at `p0`'s flag value. -/
theorem flag_foldl_all_eq (acct : String) (v : ℚ) (p0 : Posting) (h0 : p0.account = acct) :
    ∀ (l : List Posting) (acc : Option Bool), (∀ p ∈ l, p.account = acct → p = p0) →
      ((∀ p ∈ l, p.account ≠ acct) ∧
        l.foldl (fun acc p => if p.account = acct then some (decide (p.number * v < 0)) else acc) acc = acc) ∨
      l.foldl (fun acc p => if p.account = acct then some (decide (p.number * v < 0)) else acc) acc
        = some (decide (p0.number * v < 0))
  | [], acc, _ => Or.inl ⟨by simp, rfl⟩
  | p :: rest, acc, h => by
    by_cases hp : p.account = acct
    · have hpp : p = p0 := h p (List.mem_cons_self _ _) hp
      subst hpp
      simp only [List.foldl_cons, if_pos hp]
      rcases flag_foldl_all_eq acct v p h0 rest (some (decide (p.number * v < 0)))
          (fun q hq hq2 => h q (List.mem_cons_of_mem _ hq) hq2) with ⟨_, heq⟩ | heq
      · exact Or.inr heq
      · exact Or.inr heq
    · simp only [List.foldl_cons, if_neg hp]
      rcases flag_foldl_all_eq acct v p0 h0 rest acc
          (fun q hq hq2 => h q (List.mem_cons_of_mem _ hq) hq2) with ⟨hno, heq⟩ | heq
      · refine Or.inl ⟨?_, heq⟩
        intro q hq
        rcases List.mem_cons.mp hq with rfl | hq2
        · exact hp
        · exact hno q hq2
      · exact Or.inr heq

/-- With a unique importing-account leg `p0`, the reversal flag is exactly
`p0.number * v < 0`. -/
theorem revFlag_unique (prev : List Posting) (acct : String) (v : ℚ) (p0 : Posting)
    (hm : p0 ∈ prev) (h0 : p0.account = acct) (hu : ∀ p ∈ prev, p.account = acct → p = p0) :
    revFlag prev acct v = some (decide (p0.number * v < 0)) := by
  rcases flag_foldl_all_eq acct v p0 h0 prev none hu with ⟨hno, _⟩ | heq
  · exact absurd h0 (hno p0 hm)
  · exact heq

/-- A bound reversal flag means some leg is on the importing account. -/
theorem revFlag_some_exists (prev : List Posting) (acct : String) (v : ℚ) (b : Bool)
    (h : revFlag prev acct v = some b) : ∃ p ∈ prev, p.account = acct := by
  by_contra hno
  push_neg at hno
  have h2 := flag_foldl_no_match acct v prev none hno
  rw [revFlag] at h
  rw [h2] at h
  exact Option.noConfusion h

/-- The fold computing `i` in `guess_postings`, over an enumeration starting
at `n`, lands on the last matching position (offset by `n`), or keeps its
initial value when nothing matches. -/
theorem lastMatch_foldl (acct : String) :
    ∀ (ps : List Posting) (n i0 : Nat),
      ((List.enumFrom n ps).foldl (fun i jp => if jp.2.account = acct then jp.1 else i) i0) =
        (lastMatchPos acct ps).elim i0 (fun j => n + j)
  | [], _, _ => rfl
  | p :: rest, n, i0 => by
    simp only [List.enumFrom, List.foldl_cons]
    rw [lastMatch_foldl acct rest (n+1) (if p.account = acct then n else i0)]
    cases hrest : lastMatchPos acct rest with
    | some j =>
      simp only [lastMatchPos, hrest, Option.elim]
      omega
    | none =>
      by_cases hp : p.account = acct
      · simp only [lastMatchPos, hrest, if_pos hp, Option.elim]
        omega
      · simp only [lastMatchPos, hrest, if_neg hp, Option.elim]

/-- `lastMatchIdx` is the last matching position, defaulting to `0`. -/
theorem lastMatchIdx_eq (ps : List Posting) (acct : String) :
    lastMatchIdx ps acct = (lastMatchPos acct ps).elim 0 id := by
  have h := lastMatch_foldl acct ps 0 0
  rw [lastMatchIdx]
  have henum : ps.enum = List.enumFrom 0 ps := rfl
  rw [henum, h]
  cases lastMatchPos acct ps <;> simp [Option.elim]

/-- `lastMatchPos` finds nothing exactly when no leg matches. -/
theorem lastMatchPos_none_iff (acct : String) :
    ∀ (ps : List Posting), lastMatchPos acct ps = none ↔ ∀ p ∈ ps, p.account ≠ acct
  | [] => by simp [lastMatchPos]
  | p :: rest => by
    simp only [lastMatchPos]
    cases hrest : lastMatchPos acct rest with
    | some j =>
      constructor
      · intro h; exact Option.noConfusion h
      · intro h
        have h2 := (lastMatchPos_none_iff acct rest).mpr (fun q hq => h q (List.mem_cons_of_mem _ hq))
        rw [h2] at hrest; exact Option.noConfusion hrest
    | none =>
      by_cases hp : p.account = acct
      · simp only [if_pos hp]
        constructor
        · intro h; exact Option.noConfusion h
        · intro h; exact absurd hp (h p (List.mem_cons_self _ _))
      · simp only [if_neg hp]
        constructor
        · intro _ q hq
          rcases List.mem_cons.mp hq with rfl | hq2
          · exact hp
          · exact ((lastMatchPos_none_iff acct rest).mp hrest) q hq2
        · intro _; trivial

/-- The position `lastMatchPos` returns holds a matching leg. -/
theorem lastMatchPos_get (acct : String) :
    ∀ (ps : List Posting) (j : Nat), lastMatchPos acct ps = some j →
      ∃ p, ps.get? j = some p ∧ p.account = acct
  | [], j, h => by simp [lastMatchPos] at h
  | p :: rest, j, h => by
    simp only [lastMatchPos] at h
    cases hrest : lastMatchPos acct rest with
    | some j2 =>
      rw [hrest] at h
      simp only [Option.some.injEq] at h
      subst h
      rcases lastMatchPos_get acct rest j2 hrest with ⟨q, hq1, hq2⟩
      exact ⟨q, by simpa using hq1, hq2⟩
    | none =>
      rw [hrest] at h
      by_cases hp : p.account = acct
      · rw [if_pos hp] at h
        simp only [Option.some.injEq] at h
        subst h
        exact ⟨p, rfl, hp⟩
      · rw [if_neg hp] at h
        exact Option.noConfusion h

/-- No position after `lastMatchPos` holds a matching leg: the leg it names
really is the last one on the account. -/
theorem lastMatchPos_max (acct : String) :
    ∀ (ps : List Posting) (j k : Nat), lastMatchPos acct ps = some j → j < k →
      ∀ p, ps.get? k = some p → p.account ≠ acct
  | [], _, _, _, _, _, hk => by simp at hk
  | p :: rest, j, k, h, hjk, q, hk => by
    simp only [lastMatchPos] at h
    cases hrest : lastMatchPos acct rest with
    | some j2 =>
      rw [hrest] at h
      simp only [Option.some.injEq] at h
      subst h
      match k, hjk with
      | k2 + 1, hjk =>
        have h2 : rest.get? k2 = some q := by simpa using hk
        exact lastMatchPos_max acct rest j2 k2 hrest (by omega) q h2
    | none =>
      rw [hrest] at h
      by_cases hp : p.account = acct
      · rw [if_pos hp] at h
        simp only [Option.some.injEq] at h
        subst h
        match k, hjk with
        | k2 + 1, _ =>
          have hq : rest.get? k2 = some q := by simpa using hk
          have hmem : q ∈ rest := List.get?_mem hq
          exact ((lastMatchPos_none_iff acct rest).mp hrest) q hmem
      · rw [if_neg hp] at h
        exact Option.noConfusion h

/-- Popping position `i` and appending it puts `ps[i]` last. -/
theorem popAppend_getLast (ps : List Posting) (i : Nat) (p : Posting) (h : ps.get? i = some p) :
    (popAppend ps i).getLast? = some p := by
  rw [popAppend, h]
  exact List.getLast?_concat _

/-- The flag fold never forgets a bound value. -/
theorem flag_foldl_some (acct : String) (v : ℚ) :
    ∀ (l : List Posting) (b : Bool),
      l.foldl (fun acc p => if p.account = acct then some (decide (p.number * v < 0)) else acc)
        (some b) ≠ none
  | [], _ => by simp
  | p :: rest, b => by
    simp only [List.foldl_cons]
    by_cases hp : p.account = acct
    · rw [if_pos hp]
      exact flag_foldl_some acct v rest _
    · rw [if_neg hp]
      exact flag_foldl_some acct v rest b

/-- If some leg is on the importing account, the reversal flag gets bound. -/
theorem revFlag_ne_none (prev : List Posting) (acct : String) (v : ℚ)
    (h : ∃ p ∈ prev, p.account = acct) : revFlag prev acct v ≠ none := by
  induction prev with
  | nil => simp at h
  | cons p rest ih =>
    rw [revFlag, List.foldl_cons]
    by_cases hp : p.account = acct
    · rw [if_pos hp]
      exact flag_foldl_some acct v rest _
    · rw [if_neg hp]
      rcases h with ⟨q, hq, hqa⟩
      rcases List.mem_cons.mp hq with rfl | hq2
      · exact absurd hqa hp
      · exact ih ⟨q, hq2, hqa⟩

/-- `l.getLast? = some a` implies `a ∈ l`. -/
theorem getLast?_mem_list {α : Type} : ∀ (l : List α) (a : α), l.getLast? = some a → a ∈ l
  | [], a, h => by simp at h
  | [x], a, h => by
    simp only [List.getLast?_singleton, Option.some.injEq] at h
    subst h
    exact List.mem_singleton_self _
  | x :: y :: rest, a, h => by
    rw [List.getLast?_cons_cons] at h
    exact List.mem_cons_of_mem _ (getLast?_mem_list (y :: rest) a h)

/-! ## The HistoryIndex construction invariant -/

/-- A successful lookup names a pair of the association list. -/
theorem lookupD_mem :
    ∀ (d : PostingDict) (key : String) (gs : List (List Posting)),
      lookupD d key = some gs → (key, gs) ∈ d
  | [], _, _, h => by rw [lookupD] at h; cases h
  | (k0, v0) :: rest, key, gs, h => by
    rw [lookupD] at h
    by_cases hk : k0 = key
    · rw [if_pos hk] at h
      simp only [Option.some.injEq] at h
      subst hk
      subst h
      exact List.mem_cons_self _ _
    · rw [if_neg hk] at h
      exact List.mem_cons_of_mem _ (lookupD_mem rest key gs h)

/-- `dictAppend` preserves a per-group predicate on every stored group. -/
theorem dictAppend_all (P : List Posting → Prop) :
    ∀ (d : PostingDict) (k : String) (g : List Posting),
      (∀ kv ∈ d, ∀ x ∈ kv.2, P x) → P g →
      ∀ kv ∈ dictAppend d k g, ∀ x ∈ kv.2, P x
  | [], k, g, _, hg, kv, hkv, x, hx => by
    rw [dictAppend] at hkv
    rw [List.mem_singleton.mp hkv] at hx
    rw [List.mem_singleton.mp hx]
    exact hg
  | (k0, gs0) :: rest, k, g, h, hg, kv, hkv, x, hx => by
    rw [dictAppend] at hkv
    by_cases hk0 : k0 = k
    · rw [if_pos hk0] at hkv
      rcases List.mem_cons.mp hkv with rfl | hkv2
      · rcases List.mem_append.mp hx with hx0 | hx1
        · exact h (k0, gs0) (List.mem_cons_self _ _) x hx0
        · rw [List.mem_singleton.mp hx1]
          exact hg
      · exact h kv (List.mem_cons_of_mem _ hkv2) x hx
    · rw [if_neg hk0] at hkv
      rcases List.mem_cons.mp hkv with rfl | hkv2
      · exact h (k0, gs0) (List.mem_cons_self _ _) x hx
      · exact dictAppend_all P rest k g (fun kv2 hkv3 => h kv2 (List.mem_cons_of_mem _ hkv3)) hg
          kv hkv2 x hx

/-- Every group a fold of `initialize_guessing` steps puts into the
dictionary contains a leg on the importing account. -/
theorem initialize_foldl_all (acct : String) :
    ∀ (es : List HistTxn) (d : PostingDict),
      (∀ kv ∈ d, ∀ g ∈ kv.2, ∃ p ∈ g, p.account = acct) →
      ∀ kv ∈ (es.foldl (fun d e =>
          if !(e.postings.any (fun p => p.account = acct)) then d
          else
            match e.payee with
            | none => d
            | some py => if py.length = 0 then d else dictAppend d py e.postings) d),
        ∀ g ∈ kv.2, ∃ p ∈ g, p.account = acct
  | [], _, h, kv, hkv => h kv hkv
  | e :: rest, d, h, kv, hkv => by
    rw [List.foldl_cons] at hkv
    refine initialize_foldl_all acct rest _ ?_ kv hkv
    by_cases hany : e.postings.any (fun p => p.account = acct)
    · simp only [hany, Bool.not_true, Bool.false_eq_true, if_false]
      cases hpy : e.payee with
      | none => exact h
      | some py =>
        by_cases hlen : py.length = 0
        · simp only [if_pos hlen]
          exact h
        · simp only [if_neg hlen]
          refine dictAppend_all _ d py e.postings h ?_
          rcases List.any_eq_true.mp hany with ⟨p, hp, hpa⟩
          exact ⟨p, hp, of_decide_eq_true hpa⟩
    · simp only [Bool.not_eq_true] at hany
      simp only [hany, Bool.not_false, if_true]
      exact h

/-- Every posting group `initialize_guessing` indexes contains at least one
leg on the importing account (the construction filter guarantees it). -/
theorem initialize_guessing_groups (acct : String) (entries : List HistTxn)
    (key : String) (gs : List (List Posting))
    (h : lookupD (initialize_guessing acct entries) key = some gs) :
    ∀ g ∈ gs, ∃ p ∈ g, p.account = acct := by
  rw [initialize_guessing] at h
  exact initialize_foldl_all acct _ [] (fun kv hkv => absurd hkv (List.not_mem_nil _))
    (key, gs) (lookupD_mem _ key gs h)

/-! ## Claims about the posting guesser -/

/-- Claim C6: for every payee with no entry in the history index and every
total value `v`, `guess_postings` returns exactly two postings, first the
default adjacent account with amount `-v`, then the importing account with
amount `+v`. -/
theorem claim_C6_no_history_default_postings
    (d : PostingDict) (acct dflt cur payee : String) (v : ℚ)
    (h : lookupD d payee = none) :
    guess_postings d acct dflt cur payee v =
      Except.ok [⟨dflt, -v, cur⟩, ⟨acct, v, cur⟩] := by
  simp only [guess_postings, h]

/-- Witness for C6 at a concrete input. -/
theorem claim_C6_no_history_default_postings_witness :
    guess_postings [] ("Imp") ("Def") ("EUR") ("P") 10 =
      Except.ok [⟨("Def"), -10, ("EUR")⟩, ⟨("Imp"), 10, ("EUR")⟩] :=
  claim_C6_no_history_default_postings [] ("Imp") ("Def") ("EUR") ("P") 10 rfl

/-- Claim C5: when the strictly-positive-leg sum `s` of the most recent
posting group for the payee is zero, `guess_postings` fails with the
division-by-zero error (for any actual posting group, i.e. a non-empty leg
list); it does not fall back to the default adjacent account. -/
theorem claim_C5_zero_denominator_fails
    (d : PostingDict) (acct dflt cur payee : String) (v : ℚ)
    (groups : List (List Posting)) (prev : List Posting)
    (hg : lookupD d payee = some groups) (hl : groups.getLast? = some prev)
    (hne : prev ≠ []) (hs : posSum prev = 0) :
    guess_postings d acct dflt cur payee v = Except.error ("ZeroDivisionError") := by
  have h1 : prev.isEmpty = false := by
    cases prev with
    | nil => exact absurd rfl hne
    | cons a l => rfl
  simp only [guess_postings, hg, hl, h1, Bool.false_eq_true, if_false]
  rw [if_pos hs]

/-- Witness for C5 at a concrete input: a historical group whose legs are
all negative. -/
theorem claim_C5_zero_denominator_fails_witness :
    guess_postings [(("P"), [[⟨("Imp"), -5, ("EUR")⟩]])] ("Imp") ("Def") ("EUR") ("P") 10 =
      Except.error ("ZeroDivisionError") :=
  claim_C5_zero_denominator_fails _ ("Imp") ("Def") ("EUR") ("P") 10 _ _
    rfl rfl (by decide) (by with_unfolding_all rfl)

/-- Claim C3: (a) whenever `guess_postings` returns a posting list, the last
posting is on the importing account (in both the history and the no-history
branch); (b) the move-to-end step of the history branch moves exactly the
last leg matching the importing account: the element at `lastMatchIdx`
matches, nothing after it matches, and `popAppend` puts that element
last. -/
theorem claim_C3_importing_account_last :
    (∀ (d : PostingDict) (acct dflt cur payee : String) (v : ℚ) (ps : List Posting),
      guess_postings d acct dflt cur payee v = Except.ok ps →
      ps.getLast?.map Posting.account = some acct) ∧
    (∀ (ps : List Posting) (a : String), (∃ p ∈ ps, p.account = a) →
      (popAppend ps (lastMatchIdx ps a)).getLast? = ps.get? (lastMatchIdx ps a) ∧
      (ps.get? (lastMatchIdx ps a)).map Posting.account = some a ∧
      (∀ k p, lastMatchIdx ps a < k → ps.get? k = some p → p.account ≠ a)) := by
  have hb : ∀ (ps : List Posting) (a : String), (∃ p ∈ ps, p.account = a) →
      (popAppend ps (lastMatchIdx ps a)).getLast? = ps.get? (lastMatchIdx ps a) ∧
      (ps.get? (lastMatchIdx ps a)).map Posting.account = some a ∧
      (∀ k p, lastMatchIdx ps a < k → ps.get? k = some p → p.account ≠ a) := by
    intro ps a hex
    cases hpos : lastMatchPos a ps with
    | none =>
      rcases hex with ⟨p, hp, hpa⟩
      exact absurd hpa (((lastMatchPos_none_iff a ps).mp hpos) p hp)
    | some j =>
      have hidx : lastMatchIdx ps a = j := by rw [lastMatchIdx_eq, hpos]; rfl
      rcases lastMatchPos_get a ps j hpos with ⟨p, hget, hpa⟩
      refine ⟨?_, ?_, ?_⟩
      · rw [hidx, hget]
        exact popAppend_getLast ps j p hget
      · rw [hidx, hget]
        exact congrArg some hpa
      · intro k q hk hq
        rw [hidx] at hk
        exact lastMatchPos_max a ps j k hpos hk q hq
  refine ⟨?_, hb⟩
  intro d acct dflt cur payee v ps h
  cases hg : lookupD d payee with
  | none =>
    simp only [guess_postings, hg, Except.ok.injEq] at h
    subst h
    rfl
  | some groups =>
    cases hl : groups.getLast? with
    | none =>
      simp only [guess_postings, hg, hl] at h
      exact Except.noConfusion h
    | some prev =>
      by_cases h1 : prev.isEmpty
      · simp only [guess_postings, hg, hl, h1, if_true] at h
        exact Except.noConfusion h
      · simp only [Bool.not_eq_true] at h1
        by_cases hs : posSum prev = 0
        · simp only [guess_postings, hg, hl, h1, Bool.false_eq_true, if_false, if_pos hs] at h
          exact Except.noConfusion h
        · cases hrf : revFlag prev acct v with
          | none =>
            simp only [guess_postings, hg, hl, h1, Bool.false_eq_true, if_false,
              if_neg hs, hrf] at h
            exact Except.noConfusion h
          | some rev =>
            simp only [guess_postings, hg, hl, h1, Bool.false_eq_true, if_false,
              if_neg hs, hrf, Except.ok.injEq] at h
            subst h
            rcases revFlag_some_exists prev acct v rev hrf with ⟨p, hp, hpa⟩
            have hex : ∃ q ∈ prev.map (fun p =>
                (⟨p.account, roundTo2 ((if rev then -(p.number / posSum prev)
                  else p.number / posSum prev) * |v|), cur⟩ : Posting)), q.account = acct := by
              refine ⟨_, List.mem_map_of_mem _ hp, hpa⟩
            rcases hb _ acct hex with ⟨hlast, hacc, _⟩
            rw [hlast]
            exact hacc

/-- Witness for C3, applying both parts at concrete inputs. -/
theorem claim_C3_importing_account_last_witness :
    ([(⟨("Def"), -10, ("EUR")⟩ : Posting), ⟨("Imp"), 10, ("EUR")⟩].getLast?.map
        Posting.account = some ("Imp")) ∧
    ((popAppend exGroup (lastMatchIdx exGroup ("ImportingAcct"))).getLast? =
      exGroup.get? (lastMatchIdx exGroup ("ImportingAcct"))) := by
  constructor
  · exact claim_C3_importing_account_last.1 [] ("Imp") ("Def") ("EUR") ("P") 10 _
      (by with_unfolding_all rfl)
  · exact (claim_C3_importing_account_last.2 exGroup ("ImportingAcct")
      ⟨⟨("ImportingAcct"), 80, ("EUR")⟩, by decide, rfl⟩).1

/-- Claim C4, counterexample: a most recent posting group with no leg on the
importing account on which `guess_postings` fails with the division-by-zero
error, not the unresolved-reference (`NameError`) one, because the
positive-leg sum is zero and the division is evaluated first. -/
theorem claim_C4_counterexample :
    guess_postings [(("P"), [[⟨("A"), -5, ("EUR")⟩]])] ("Imp") ("Def") ("EUR") ("P") 10
      = Except.error ("ZeroDivisionError") ∧
    (∀ p ∈ [(⟨("A"), -5, ("EUR")⟩ : Posting)], p.account ≠ ("Imp")) ∧
    Except.error ("ZeroDivisionError") ≠
      (Except.error ("NameError") : Except String (List Posting)) :=
  ⟨by with_unfolding_all rfl, by decide, by decide⟩

/-- Claim C4, amended: if the most recent posting group for a payee contains
no leg on the importing account, `guess_postings` always fails rather than
returning a posting list; the failure is the unresolved-reference
(`NameError`) condition exactly when the positive-leg sum `s` is non-zero
(with `s = 0` the division is reached first and a non-empty group fails
with the division-by-zero error, an empty one with an index error).
Under the precondition that the history index was built by
`initialize_guessing` — whose filter only retains transactions in which the
importing account appears among the legs — the unresolved-reference branch
is unreachable for any payee and value. -/
theorem claim_C4_missing_importing_leg :
    (∀ (d : PostingDict) (acct dflt cur payee : String) (v : ℚ)
        (groups : List (List Posting)) (prev : List Posting),
      lookupD d payee = some groups → groups.getLast? = some prev →
      (∀ p ∈ prev, p.account ≠ acct) →
      (∃ e, guess_postings d acct dflt cur payee v = Except.error e) ∧
        (posSum prev ≠ 0 →
          guess_postings d acct dflt cur payee v = Except.error ("NameError"))) ∧
    (∀ (acct dflt cur payee : String) (entries : List HistTxn) (v : ℚ),
      guess_postings (initialize_guessing acct entries) acct dflt cur payee v ≠
        Except.error ("NameError")) := by
  constructor
  · intro d acct dflt cur payee v groups prev hg hl hno
    by_cases hne : prev = []
    · subst hne
      refine ⟨⟨("IndexError"), ?_⟩, fun hs => absurd rfl hs⟩
      simp only [guess_postings, hg, hl]
      rfl
    · have h1 : prev.isEmpty = false := by
        cases prev with
        | nil => exact absurd rfl hne
        | cons a l => rfl
      have hrf : revFlag prev acct v = none := flag_foldl_no_match acct v prev none hno
      by_cases hs : posSum prev = 0
      · refine ⟨⟨("ZeroDivisionError"), ?_⟩, fun hs2 => absurd hs hs2⟩
        simp only [guess_postings, hg, hl, h1, Bool.false_eq_true, if_false]
        rw [if_pos hs]
      · have hname : guess_postings d acct dflt cur payee v = Except.error ("NameError") := by
          simp only [guess_postings, hg, hl, h1, Bool.false_eq_true, if_false, if_neg hs, hrf]
        exact ⟨⟨("NameError"), hname⟩, fun _ => hname⟩
  · intro acct dflt cur payee entries v heq
    cases hg : lookupD (initialize_guessing acct entries) payee with
    | none =>
      simp only [guess_postings, hg] at heq
      exact Except.noConfusion heq
    | some groups =>
      cases hl : groups.getLast? with
      | none =>
        simp only [guess_postings, hg, hl, Except.error.injEq] at heq
        exact absurd heq (by decide)
      | some prev =>
        have hmem : prev ∈ groups := getLast?_mem_list groups prev hl
        have hgrp := initialize_guessing_groups acct entries payee groups hg prev hmem
        have hrf := revFlag_ne_none prev acct v hgrp
        by_cases h1 : prev.isEmpty
        · simp only [guess_postings, hg, hl, h1, if_true, Except.error.injEq] at heq
          exact absurd heq (by decide)
        · simp only [Bool.not_eq_true] at h1
          by_cases hs : posSum prev = 0
          · simp only [guess_postings, hg, hl, h1, Bool.false_eq_true, if_false,
              if_pos hs, Except.error.injEq] at heq
            exact absurd heq (by decide)
          · cases hrf2 : revFlag prev acct v with
            | none => exact hrf hrf2
            | some rev =>
              simp only [guess_postings, hg, hl, h1, Bool.false_eq_true, if_false,
                if_neg hs, hrf2] at heq
              exact Except.noConfusion heq

/-- Witness for the amended C4, applying both parts at concrete inputs. -/
theorem claim_C4_missing_importing_leg_witness :
    guess_postings [(("P"), [[⟨("A"), 5, ("EUR")⟩]])] ("Imp") ("Def") ("EUR") ("P") 10 =
      Except.error ("NameError") ∧
    guess_postings
        (initialize_guessing ("Imp") [⟨⟨2022, 1, 1⟩, some ("P"), [⟨("A"), -5, ("EUR")⟩]⟩])
        ("Imp") ("Def") ("EUR") ("P") 10 ≠ Except.error ("NameError") := by
  constructor
  · exact (claim_C4_missing_importing_leg.1 [(("P"), [[⟨("A"), 5, ("EUR")⟩]])]
        ("Imp") ("Def") ("EUR") ("P") 10 [[⟨("A"), 5, ("EUR")⟩]]
        [⟨("A"), 5, ("EUR")⟩] rfl rfl (by decide)).2 (by with_unfolding_all decide)
  · exact claim_C4_missing_importing_leg.2 ("Imp") ("Def") ("EUR") ("P")
      [⟨⟨2022, 1, 1⟩, some ("P"), [⟨("A"), -5, ("EUR")⟩]⟩] 10

/-- Claim C1: for a payee with history, `guess_postings` takes the most
recent (last) posting group, scales every leg in original order by
`leg.amount / s` (with `s` the sum of the strictly positive leg amounts)
applied to `|v|` and rounded to two places, negating exactly when the
historical importing-account leg's amount and `v` have opposite signs, and
finally moves the importing-account leg to the end; in particular, on the
specification's worked example `guess("P", 40)` with history
`[(Groceries, -80), (ImportingAcct, +80)]` it returns
`[(Groceries, -40), (ImportingAcct, +40)]`. -/
theorem claim_C1_proportional_split :
    (∀ (d : PostingDict) (acct dflt cur payee : String) (v : ℚ)
        (groups : List (List Posting)) (prev : List Posting) (p0 : Posting),
      lookupD d payee = some groups →
      groups.getLast? = some prev →
      p0 ∈ prev → p0.account = acct →
      (∀ p ∈ prev, p.account = acct → p = p0) →
      posSum prev ≠ 0 →
      guess_postings d acct dflt cur payee v =
        Except.ok (popAppend
          (prev.map (fun p => (⟨p.account,
            (if p0.number * v < 0
              then -(roundTo2 (p.number / posSum prev * |v|))
              else roundTo2 (p.number / posSum prev * |v|)), cur⟩ : Posting)))
          (lastMatchIdx (prev.map (fun p => (⟨p.account,
            (if p0.number * v < 0
              then -(roundTo2 (p.number / posSum prev * |v|))
              else roundTo2 (p.number / posSum prev * |v|)), cur⟩ : Posting))) acct))) ∧
    guess_postings exDict ("ImportingAcct") ("Def") ("EUR") ("P") 40 =
      Except.ok [⟨("Groceries"), -40, ("EUR")⟩, ⟨("ImportingAcct"), 40, ("EUR")⟩] := by
  constructor
  · intro d acct dflt cur payee v groups prev p0 hg hl hp0 hacc huniq hs
    have h1 : prev.isEmpty = false := by
      cases prev with
      | nil => simp at hp0
      | cons a l => rfl
    simp only [guess_postings, hg, hl, h1, Bool.false_eq_true, if_false]
    rw [if_neg hs]
    simp only [revFlag_unique prev acct v p0 hp0 hacc huniq]
    simp only [share_neg_comm, decide_eq_true_eq]
  · with_unfolding_all rfl

/-- Witness for C1: the general statement applied to the worked example. -/
theorem claim_C1_proportional_split_witness :
    guess_postings exDict ("ImportingAcct") ("Def") ("EUR") ("P") 40 =
      Except.ok (popAppend
        (exGroup.map (fun p => (⟨p.account,
          (if (80 : ℚ) * 40 < 0
            then -(roundTo2 (p.number / posSum exGroup * |(40 : ℚ)|))
            else roundTo2 (p.number / posSum exGroup * |(40 : ℚ)|)), ("EUR")⟩ : Posting)))
        (lastMatchIdx (exGroup.map (fun p => (⟨p.account,
          (if (80 : ℚ) * 40 < 0
            then -(roundTo2 (p.number / posSum exGroup * |(40 : ℚ)|))
            else roundTo2 (p.number / posSum exGroup * |(40 : ℚ)|)), ("EUR")⟩ : Posting)))
          ("ImportingAcct"))) :=
  claim_C1_proportional_split.1 exDict ("ImportingAcct") ("Def") ("EUR") ("P") 40
    [exGroup] exGroup ⟨("ImportingAcct"), 80, ("EUR")⟩
    rfl rfl (by decide) rfl (by decide) (by with_unfolding_all decide)

/-! ## Claims about the format detector -/

/-- Claim C7: `identify` scans the lines from the start and tests each line
for the four fixed header signatures by substring containment in priority
order 1,2,3,4; the first line containing any signature short-circuits with
that version, and a file none of whose lines contains any signature yields
the non-fatal `none` (Python `return False` after the diagnostic print). -/
theorem claim_C7_detect_priority_and_miss :
    (∀ (lines : List String),
      (∀ l ∈ lines, ∀ k, 1 ≤ k → k ≤ 4 → strContains l (headerOf k) = false) →
      identify lines = none) ∧
    (∀ (pre : List String) (l : String) (post : List String) (k : Nat),
      1 ≤ k → k ≤ 4 →
      (∀ x ∈ pre, ∀ j, 1 ≤ j → j ≤ 4 → strContains x (headerOf j) = false) →
      strContains l (headerOf k) = true →
      (∀ j, 1 ≤ j → j < k → strContains l (headerOf j) = false) →
      identify (pre ++ l :: post) = some k) := by
  constructor
  · intro lines
    induction lines with
    | nil => intro _; rfl
    | cons x rest ih =>
      intro h
      have e1 : strContains x header_version1 = false :=
        h x (List.mem_cons_self _ _) 1 (by norm_num) (by norm_num)
      have e2 : strContains x header_version2 = false :=
        h x (List.mem_cons_self _ _) 2 (by norm_num) (by norm_num)
      have e3 : strContains x header_version3 = false :=
        h x (List.mem_cons_self _ _) 3 (by norm_num) (by norm_num)
      have e4 : strContains x header_version4 = false :=
        h x (List.mem_cons_self _ _) 4 (by norm_num) (by norm_num)
      simp only [identify, e1, e2, e3, e4, Bool.false_eq_true, if_false]
      exact ih (fun y hy => h y (List.mem_cons_of_mem _ hy))
  · intro pre l post k hk1 hk4 hpre hl hmax
    induction pre with
    | nil =>
      simp only [List.nil_append]
      interval_cases k
      · simp only [identify, show strContains l header_version1 = true from hl, if_true]
      · have e1 : strContains l header_version1 = false := hmax 1 (by norm_num) (by norm_num)
        simp only [identify, e1, Bool.false_eq_true, if_false,
          show strContains l header_version2 = true from hl, if_true]
      · have e1 : strContains l header_version1 = false := hmax 1 (by norm_num) (by norm_num)
        have e2 : strContains l header_version2 = false := hmax 2 (by norm_num) (by norm_num)
        simp only [identify, e1, e2, Bool.false_eq_true, if_false,
          show strContains l header_version3 = true from hl, if_true]
      · have e1 : strContains l header_version1 = false := hmax 1 (by norm_num) (by norm_num)
        have e2 : strContains l header_version2 = false := hmax 2 (by norm_num) (by norm_num)
        have e3 : strContains l header_version3 = false := hmax 3 (by norm_num) (by norm_num)
        simp only [identify, e1, e2, e3, Bool.false_eq_true, if_false,
          show strContains l header_version4 = true from hl, if_true]
    | cons x rest ih =>
      have e1 : strContains x header_version1 = false :=
        hpre x (List.mem_cons_self _ _) 1 (by norm_num) (by norm_num)
      have e2 : strContains x header_version2 = false :=
        hpre x (List.mem_cons_self _ _) 2 (by norm_num) (by norm_num)
      have e3 : strContains x header_version3 = false :=
        hpre x (List.mem_cons_self _ _) 3 (by norm_num) (by norm_num)
      have e4 : strContains x header_version4 = false :=
        hpre x (List.mem_cons_self _ _) 4 (by norm_num) (by norm_num)
      simp only [List.cons_append, identify, e1, e2, e3, e4, Bool.false_eq_true, if_false]
      exact ih (fun y hy => hpre y (List.mem_cons_of_mem _ hy))

set_option maxRecDepth 200000 in
/-- Witness for C7: a noise-only file is not recognized, and a file whose
second line is the version-3 header is detected as version 3 (the line
contains no higher-priority signature). -/
theorem claim_C7_detect_priority_and_miss_witness :
    identify [("zzz")] = none ∧ identify [("zzz"), header_version3] = some 3 := by
  constructor
  · exact claim_C7_detect_priority_and_miss.1 [("zzz")] (by decide)
  · exact claim_C7_detect_priority_and_miss.2 [("zzz")] header_version3 [] 3
      (by norm_num) (by norm_num) (by decide) (by decide) (by decide)

/-! ## Claims about the value codec and the end-to-end scenario -/

/-- Claim C9: `convert_value` strips the thousands separator `.`, converts
the decimal separator `,` to `.`, strips quote characters and negates
exactly when the marker denotes a debit: on `"1.200,30"` it yields the
string `"-1200.30"` for marker `"S"` and `"1200.30"` for `"H"`, which parse
to the decimals `-1200.30` and `1200.30`. -/
theorem claim_C9_convert_value_examples :
    convert_value ("1.200,30") ("S") = ("-1200.30") ∧
    convert_value ("1.200,30") ("H") = ("1200.30") ∧
    parseRat (convert_value ("1.200,30") ("S")) = some (-(12003/10) : ℚ) ∧
    parseRat (convert_value ("1.200,30") ("H")) = some ((12003/10) : ℚ) :=
  ⟨by decide, by decide, by with_unfolding_all rfl, by with_unfolding_all rfl⟩

/-- Claim C2: on the V2 file with one data row (01.03.2022, Landlord,
650,00 S) and one Endsaldo row (1200,00 H), with an empty history index,
`extract` returns exactly one transaction dated 2022-03-01 with postings
`[(default adjacent account, +650), (importing account, -650)]` followed by
exactly one balance assertion dated 2022-03-02 (the closing-balance date
plus one day) on the importing account for 1200. -/
theorem claim_C2_v2_end_to_end (acct dflt cur flg : String) :
    extract_v2 acct dflt cur flg [] c2Lines =
    Except.ok [Entry.txn ⟨⟨2022, 3, 1⟩, flg, ("Landlord"), ("Miete"),
                 [⟨dflt, 650, cur⟩, ⟨acct, -650, cur⟩], 1⟩,
               Entry.balance ⟨2022, 3, 2⟩ acct 1200 2] := by
  with_unfolding_all rfl

/-! ## Lemmas about the V3/V4 parser -/

/-- A successfully parsed V3 row always carries a running balance. -/
theorem parseRowV3_ok_kontostand (values : List String) (ln : Nat) (r : RawRec)
    (h : parseRowV3 values ln = Except.ok r) : ∃ k, r.kontostand = some k := by
  unfold parseRowV3 at h
  repeat' split at h
  all_goals first
    | exact Except.noConfusion h
    | exact ⟨_, by rw [← Except.ok.inj h]⟩

/-- Skipping the header region: `parse_v3_go` consumes lines up to and
including the first one containing `Mandatsreferenz`, incrementing the line
counter. -/
theorem parse_v3_go_header :
    ∀ (pre : List String) (l : String) (post : List String) (ln : Nat) (acc : List RawRec),
      (∀ x ∈ pre, strContains x ("Mandatsreferenz") = false) →
      strContains l ("Mandatsreferenz") = true →
      parse_v3_go (pre ++ l :: post) ln true acc =
        parse_v3_go post (ln + pre.length + 1) false acc
  | [], l, post, ln, acc, _, hl => by
    simp only [List.nil_append, parse_v3_go, hl]
    rfl
  | x :: pre, l, post, ln, acc, hpre, hl => by
    have hx : strContains x ("Mandatsreferenz") = false := hpre x (List.mem_cons_self _ _)
    simp only [List.cons_append, parse_v3_go, hx]
    have hb : (!false) = true := rfl
    rw [hb]
    have ih := parse_v3_go_header pre l post (ln+1) acc
      (fun y hy => hpre y (List.mem_cons_of_mem _ hy)) hl
    have harith : ln + 1 + pre.length + 1 = ln + (x :: pre).length + 1 := by
      simp only [List.length_cons]
      omega
    rw [harith] at ih
    exact ih

/-- Shape of a successful V3 parse past the header: the record list extends
the accumulator with one record per data line, and the synthesized
Endsaldo is built from the first record's date, running balance and line
number. -/
theorem parse_v3_go_ok_shape :
    ∀ (lines : List String) (ln : Nat) (acc recs : List RawRec) (es : Option Endsaldo),
      (∀ r ∈ acc, r.kontostand ≠ none) →
      parse_v3_go lines ln false acc = Except.ok (recs, es) →
      (∃ r rs k, recs = r :: rs ∧ r.kontostand = some k ∧
        es = some (r.buchungstag, k, r.linenumber)) ∧
      recs.length = acc.length + (lines.filter v3IsDataLine).length
  | [], ln, acc, recs, es, hacc, h => by
    simp only [parse_v3_go] at h
    cases hrev : acc.reverse with
    | nil =>
      rw [hrev] at h
      exact Except.noConfusion h
    | cons r rs =>
      rw [hrev] at h
      simp only [Except.ok.injEq, Prod.mk.injEq] at h
      obtain ⟨hrecs, hes⟩ := h
      subst hrecs
      subst hes
      have hr : r ∈ acc := List.mem_reverse.mp (hrev ▸ List.mem_cons_self r rs)
      cases hk : r.kontostand with
      | none => exact absurd hk (hacc r hr)
      | some k =>
        refine ⟨⟨r, rs, k, rfl, hk, rfl⟩, ?_⟩
        rw [← hrev, List.length_reverse]
        simp
  | l :: rest, ln, acc, recs, es, hacc, h => by
    simp only [parse_v3_go] at h
    by_cases hemp : ((splitSemi l).headD ("")).data.length = 0
    · rw [if_pos hemp] at h
      have hv : v3IsDataLine l = false := by
        rw [v3IsDataLine, hemp]
        rfl
      have ih := parse_v3_go_ok_shape rest (ln+1) acc recs es hacc h
      refine ⟨ih.1, ?_⟩
      rw [ih.2]
      simp only [List.filter_cons, hv, Bool.false_eq_true, if_false]
    · rw [if_neg hemp] at h
      cases hrow : parseRowV3 (splitSemi l) ln with
      | error e =>
        rw [hrow] at h
        exact Except.noConfusion h
      | ok r =>
        rw [hrow] at h
        rcases parseRowV3_ok_kontostand (splitSemi l) ln r hrow with ⟨k, hk⟩
        have hacc2 : ∀ x ∈ (r :: acc), x.kontostand ≠ none := by
          intro x hx
          rcases List.mem_cons.mp hx with rfl | hx2
          · rw [hk]
            exact Option.noConfusion
          · exact hacc x hx2
        have ih := parse_v3_go_ok_shape rest (ln+1) (r :: acc) recs es hacc2 h
        have hv : v3IsDataLine l = true := by
          rw [v3IsDataLine, bne_iff_ne]
          exact hemp
        refine ⟨ih.1, ?_⟩
        rw [ih.2]
        simp only [List.filter_cons, hv, if_true, List.length_cons]
        omega

/-- When every remaining line is skipped (empty leading field), the V3 loop
finishes with whatever is in the accumulator. -/
theorem parse_v3_go_all_skip :
    ∀ (post : List String) (ln : Nat) (acc : List RawRec),
      (∀ x ∈ post, v3IsDataLine x = false) →
      parse_v3_go post ln false acc = parse_v3_go [] 0 false acc
  | [], _, _, _ => rfl
  | l :: rest, ln, acc, h => by
    have hl : v3IsDataLine l = false := h l (List.mem_cons_self _ _)
    simp only [parse_v3_go]
    by_cases hemp : ((splitSemi l).headD ("")).data.length = 0
    · rw [if_pos hemp]
      exact parse_v3_go_all_skip rest (ln+1) acc (fun y hy => h y (List.mem_cons_of_mem _ hy))
    · have hv : v3IsDataLine l = true := by
        rw [v3IsDataLine, bne_iff_ne]
        exact hemp
      exact absurd (hv.symm.trans hl) (by decide)

/-! ## Claims about the V3/V4 parser -/

set_option maxRecDepth 200000 in
/-- Claim C8: on a V3/V4 file with at least one parsed row, the closing
balance is synthesized from the first parsed row (its booking date, running
balance and line number); no row is treated as an Anfangssaldo or Endsaldo
marker row and every non-skipped row becomes a record, as the record count
and the concrete file whose data row contains the text `Endsaldo` show. -/
theorem claim_C8_v3_closing_balance_synthesis :
    (∀ (pre : List String) (l : String) (post : List String)
        (recs : List RawRec) (es : Option Endsaldo),
      (∀ x ∈ pre, strContains x ("Mandatsreferenz") = false) →
      strContains l ("Mandatsreferenz") = true →
      parse_csv_file_v3 (pre ++ l :: post) = Except.ok (recs, es) →
      (∃ r rs k, recs = r :: rs ∧ r.kontostand = some k ∧
        es = some (r.buchungstag, k, r.linenumber)) ∧
      recs.length = (post.filter v3IsDataLine).length) ∧
    parse_csv_file_v3 [header_version3, ("A;;;;02.03.2022;;X;;;;Endsaldo;1,00;;5,00")] =
      Except.ok ([⟨⟨2022, 3, 2⟩, ("X"), ("Endsaldo"), ("1.00"), some ("5.00"), 1⟩],
        some (⟨2022, 3, 2⟩, ("5.00"), 1)) := by
  constructor
  · intro pre l post recs es hpre hl h
    rw [parse_csv_file_v3, parse_v3_go_header pre l post 0 [] hpre hl] at h
    have hs := parse_v3_go_ok_shape post (0 + pre.length + 1) [] recs es
      (fun r hr => absurd hr (List.not_mem_nil _)) h
    refine ⟨hs.1, ?_⟩
    rw [hs.2]
    simp
  · decide

set_option maxRecDepth 200000 in
/-- Witness for C8: the general statement applied to the concrete one-data-
row file above. -/
theorem claim_C8_v3_closing_balance_synthesis_witness :
    (∃ r rs k,
      ([(⟨⟨2022, 3, 2⟩, ("X"), ("Endsaldo"), ("1.00"), some ("5.00"), 1⟩ : RawRec)]) = r :: rs ∧
      RawRec.kontostand r = some k ∧
      (some ((⟨2022, 3, 2⟩ : SDate), ("5.00"), 1) : Option Endsaldo) =
        some (r.buchungstag, k, r.linenumber)) ∧
    ([(⟨⟨2022, 3, 2⟩, ("X"), ("Endsaldo"), ("1.00"), some ("5.00"), 1⟩ : RawRec)]).length =
      (([("A;;;;02.03.2022;;X;;;;Endsaldo;1,00;;5,00")]).filter v3IsDataLine).length :=
  claim_C8_v3_closing_balance_synthesis.1 [] header_version3
    [("A;;;;02.03.2022;;X;;;;Endsaldo;1,00;;5,00")] _ _
    (fun x hx => absurd hx (List.not_mem_nil _)) (by decide) (by decide)

/-- Claim C10: a V3/V4 file that reaches the header line but contains no data
row afterwards fails with the index error raised while synthesizing the
closing balance from the (missing) first row — parsing a V3/V4 file
requires at least one data row. -/
theorem claim_C10_v3_requires_data_row
    (pre : List String) (l : String) (post : List String)
    (hpre : ∀ x ∈ pre, strContains x ("Mandatsreferenz") = false)
    (hl : strContains l ("Mandatsreferenz") = true)
    (hpost : ∀ x ∈ post, v3IsDataLine x = false) :
    parse_csv_file_v3 (pre ++ l :: post) = Except.error ("IndexError") := by
  rw [parse_csv_file_v3, parse_v3_go_header pre l post 0 [] hpre hl,
    parse_v3_go_all_skip post _ [] hpost]
  rfl

set_option maxRecDepth 200000 in
/-- Witness for C10: the file holding only the V3 header fails to parse. -/
theorem claim_C10_v3_requires_data_row_witness :
    parse_csv_file_v3 [header_version3] = Except.error ("IndexError") :=
  claim_C10_v3_requires_data_row [] header_version3 []
    (fun x hx => absurd hx (List.not_mem_nil _)) (by decide)
    (fun x hx => absurd hx (List.not_mem_nil _))

end Volksbank
